import Mathlib

/-!
# Aion — shallow embedding and verification of the core pipeline

This file embeds the core of the Aion agent framework (JavaScript) in Lean 4
and proves/refutes the frozen specification claims about it.

Modelling conventions:
* JavaScript values that flow through JSON boundaries are modelled by the
  inductive `JsVal` (numbers as rationals, which is the relevant abstraction
  for the confidence comparisons in play; `NaN` does not arise in the claims).
* An oracle (LLM) reply goes through the defensive substring/`JSON.parse`
  decode in the source (`indexOf("\x7b")` … `JSON.parse`); we model the reply
  at this decode boundary as `Option JsVal`: `some j` when `JSON.parse` of the
  brace-slice succeeded with value `j`, `none` when it threw.
* `appendMemory` audit writes have no effect on any result value in the source
  (failures there are caught by the outer behaviour of the callers and the written
  records are never re-read by the engine), so they are not modelled.
* Nondeterministic inputs (executor outcomes, oracle replies, arbitration
  decisions) are supplied through explicit environment records, indexed in the
  same way the source indexes its calls (step id and attempt number).
-/

namespace Aion

/-- A JavaScript value as it appears at the JSON decode boundaries of Aion.
`vUndefined` models `undefined`, `vNull` models `null`. Numbers are rationals. -/
inductive JsVal where
  | vUndefined
  | vNull
  | vBool (b : Bool)
  | vNum (q : ℚ)
  | vStr (s : String)
  | vArr (elems : List JsVal)
  | vObj (fields : List (String × JsVal))
deriving Repr

/-- JavaScript truthiness (`Boolean(v)`, `!v`, `v ? _ : _`).  `NaN` cannot
arise in `ℚ`, otherwise this matches the JS coercion table. -/
def truthy : JsVal → Bool
  | .vUndefined => false
  | .vNull => false
  | .vBool b => b
  | .vNum q => decide (q ≠ 0)
  | .vStr s => decide (s ≠ "")
  | .vArr _ => true
  | .vObj _ => true

/-- Property access `v.k` on a JS value: the field if `v` is an object that
has it, `undefined` otherwise. -/
def getField : JsVal → String → JsVal
  | .vObj fs, k =>
    match fs.lookup k with
    | some v => v
    | none => .vUndefined
  | _, _ => .vUndefined

/-- JavaScript `a || b`. -/
def jsOr (a b : JsVal) : JsVal := if truthy a then a else b

/-- JavaScript `a ?? b` (nullish coalescing). -/
def jsNullish (a b : JsVal) : JsVal :=
  match a with
  | .vUndefined => b
  | .vNull => b
  | v => v

/-- Test for `typeof v === "object"` (true for objects, arrays and `null` in JS). -/
def typeofObject : JsVal → Bool
  | .vObj _ => true
  | .vArr _ => true
  | .vNull => true
  | _ => false

end Aion

namespace Aion.Planner

/-!
## PlannerLayer (src/brain/PlannerLayer.js)

The planner resolves a `TaskSpec` into a `PipelineSpec`:
* `plan` looks the task type up in the persisted blueprint store
  (`this.blueprints`), synthesizes a new blueprint via the oracle when absent,
  stores it, and instantiates concrete steps from the blueprint;
* `safeParseBlueprint` substitutes the fixed two-step fallback blueprint when
  the synthesis reply has no decodable JSON;
* `selfCheckBlueprint` runs one oracle self-check pass and accepts whatever
  `parsed.blueprint` the reply carries, keeping the original on decode failure.

Oracle replies are modelled at the decode boundary (`Option JsVal`), and the
`ToolArbitration.decide` call made per instantiated step is modelled as an
environment-supplied decision per step index (arbitration itself is embedded
separately in `Aion.Arbitration`).
-/

open Aion

/-- The task fields the planner reads (`taskSpec.id/type/goal/details`). -/
structure TaskSpecM where
  id : String
  type : String
  goal : JsVal
  details : JsVal

/-- An arbitration decision as consumed by the planner
(`toolArbiter.decide(...)` result). -/
structure ArbOut where
  primary : JsVal
  secondary : JsVal
  reason : JsVal
  confidence : ℚ
  source : String
deriving Repr

/-- Environment of one planner resolution: the decoded synthesis-oracle reply,
the decoded blueprint-self-check reply, and the arbitration decision used for
the step at each index. -/
structure PlanEnv where
  synthReply : Option JsVal
  checkReply : Option JsVal
  arb : Nat → ArbOut

/-- The fixed two-step fallback blueprint of `PlannerLayer.safeParseBlueprint`
(generic research step, then generic generate step). -/
def fallbackBlueprint (typeName : String) : JsVal :=
  .vObj
    [("source", .vStr "fallback"),
     ("type", .vStr typeName),
     ("steps", .vArr
       [.vObj
          [("title", .vStr "Research underlying task"),
           ("agent", .vStr "ResearchAgent"),
           ("inputTemplate", .vObj []),
           ("retry", .vNum 1)],
        .vObj
          [("title", .vStr "Generate final output"),
           ("agent", .vStr "CodeAgent"),
           ("inputTemplate", .vObj []),
           ("retry", .vNum 1)]])]

/-- Embedding of `PlannerLayer.safeParseBlueprint`: the decoded synthesis reply, or the
fixed fallback blueprint when no JSON object could be decoded. -/
def safeParseBlueprint (reply : Option JsVal) (typeName : String) : JsVal :=
  match reply with
  | some j => j
  | none => fallbackBlueprint typeName

/-- Embedding of `PlannerLayer.safeParseSelfCheck`: the decoded self-check reply, or
`\x7bvalid: true, blueprint: original\x7d` when decoding failed. -/
def safeParseSelfCheck (reply : Option JsVal) (original : JsVal) : JsVal :=
  match reply with
  | some j => j
  | none => .vObj [("valid", .vBool true), ("blueprint", original)]

/-- Embedding of `PlannerLayer.selfCheckBlueprint` (result value): one self-check pass,
returning `parsed.blueprint` where `parsed` is the defensively decoded oracle
reply (`safeParseSelfCheck`). -/
def selfCheckBlueprint (reply : Option JsVal) (blueprint : JsVal) : JsVal :=
  getField (safeParseSelfCheck reply blueprint) "blueprint"

/-- Embedding of `PlannerLayer.createBlueprintForNewType` (result value): decode the
synthesis reply (falling back), then run the single self-check pass. -/
def createBlueprintForNewType (env : PlanEnv) (typeName : String) : JsVal :=
  selfCheckBlueprint env.checkReply (safeParseBlueprint env.synthReply typeName)

/-- One instantiated pipeline step, as built in
`PlannerLayer.generatePipelineFromBlueprint` (the merged `input` object is
kept as its named constituents). -/
structure PStep where
  id : String
  title : JsVal
  agent : JsVal
  inputTemplate : JsVal
  taskGoal : JsVal
  taskDetails : JsVal
  blueprintAgent : JsVal
  arbitration : ArbOut
  retry : JsVal

/-- The produced `pipelineSpec`. -/
structure PipelineOut where
  taskId : String
  steps : List PStep
  blueprintSource : JsVal
  pipeType : String

/-- One iteration of the step-instantiation loop in
`generatePipelineFromBlueprint`. -/
def instantiateStep (env : PlanEnv) (task : TaskSpecM) (i : Nat)
    (stepObj : JsVal) : PStep :=
  let decision := env.arb i
  { id := "step_" ++ toString (i + 1)
    title := getField stepObj "title"
    agent := decision.primary
    inputTemplate := getField stepObj "inputTemplate"
    taskGoal := task.goal
    taskDetails := task.details
    blueprintAgent := getField stepObj "agent"
    arbitration := decision
    retry := jsNullish (getField stepObj "retry") (.vNum 1) }

/-- Embedding of `PlannerLayer.generatePipelineFromBlueprint`.  `none` models
the exception thrown by `blueprint.steps.length` when `blueprint.steps` is
`undefined`/`null`; other non-array `steps` values (a string iterating its
characters, a plain object yielding no iterations) are collapsed into the
same `none` — no theorem below rests on that edge, every application is to a
blueprint whose `steps` is an array. -/
def generatePipelineFromBlueprint (env : PlanEnv) (task : TaskSpecM)
    (blueprint : JsVal) : Option PipelineOut :=
  match getField blueprint "steps" with
  | .vArr steps =>
    some
      { taskId := task.id
        steps := steps.mapIdx (fun i st => instantiateStep env task i st)
        blueprintSource := getField blueprint "source"
        pipeType := task.type }
  | _ => none

/-- JS property read `this.blueprints[type]` on the store (an association
list keyed by category, newest binding first — key overwrite in the JS
object): `undefined` when the key is absent. -/
def storeGet (store : List (String × JsVal)) (k : String) : JsVal :=
  match store.lookup k with
  | some v => v
  | none => .vUndefined

/-- Embedding of `PlannerLayer.plan`: read `this.blueprints[type]` and test
it for JS truthiness (`if (blueprintExists)`); when truthy, instantiate from
the stored value; otherwise synthesize a blueprint, store whatever came back
(possibly `undefined`), and instantiate from it.  Returns the pipeline, the
updated blueprint store, and the number of synthesis-oracle invocations made
by this call. -/
def plan (env : PlanEnv) (store : List (String × JsVal)) (task : TaskSpecM) :
    Option PipelineOut × List (String × JsVal) × Nat :=
  let blueprintExists := storeGet store task.type
  if truthy blueprintExists then
    (generatePipelineFromBlueprint env task blueprintExists, store, 0)
  else
    let newBp := createBlueprintForNewType env task.type
    (generatePipelineFromBlueprint env task newBp, (task.type, newBp) :: store, 1)

end Aion.Planner

namespace Aion.Planner

open Aion

/-- A concrete arbitration decision used to instantiate environments. -/
def arbOut0 : ArbOut :=
  { primary := .vStr "CodeAgent", secondary := .vArr [], reason := .vStr ""
    confidence := 0.6, source := "heuristic_only" }

/-- A concrete planner environment whose two oracle replies both fail to
decode. -/
def planEnv0 : PlanEnv := ⟨none, none, fun _ => arbOut0⟩

/-- A concrete task of category `"demo"`. -/
def task0 : TaskSpecM := ⟨"task_1", "demo", .vStr "X", .vObj []⟩

/-- C9: the blueprint self-check is a single pass: the `blueprint` field of a decoded reply is accepted verbatim, and on decode failure the original
candidate blueprint is kept unchanged. -/
theorem selfCheckBlueprint_single_pass :
    (∀ j orig, selfCheckBlueprint (some j) orig = getField j "blueprint") ∧
    (∀ orig, selfCheckBlueprint none orig = orig) := by
  constructor
  · intro j orig
    rfl
  · intro orig
    rfl

/-- A concrete planner environment whose blueprint self-check reply decodes
to an object with no `blueprint` field, so `createBlueprintForNewType`
returns `undefined`. -/
def planEnvU : PlanEnv :=
  ⟨none, some (.vObj [("valid", .vBool true)]), fun _ => arbOut0⟩

/-- C7 counterexample: the first resolution of category `"demo"` invokes
synthesis and persists `undefined` under the category (the self-check reply
decoded to an object with no `blueprint` field); the second resolution finds
the stored value falsy (`if (blueprintExists)`) and invokes synthesis again —
so the second resolution does invoke the synthesis oracle, and synthesis is
not called at most once per category per process. -/
theorem plan_resynthesizes_counterexample :
    (plan planEnvU [] task0).2.2 = 1 ∧
    (plan planEnvU [] task0).2.1.lookup "demo" = some .vUndefined ∧
    (plan planEnvU (plan planEnvU [] task0).2.1 task0).2.2 = 1 :=
  ⟨rfl, rfl, rfl⟩

/-- C7 (amended): after an actual — truthy — Blueprint has been persisted for
a task category, a second resolution for that category makes no
synthesis-oracle invocation: it reuses the stored Blueprint, leaves the store
unchanged and only instantiates concrete steps from it; and after any first
resolution that left a truthy value stored under the category, the second
resolution makes no synthesis invocation.  (When the persisted value is
falsy, such as `undefined` stored from a self-check reply without a
`blueprint` field, a later resolution re-invokes synthesis, so synthesis is
not in general called at most once per category per process.) -/
theorem plan_reuses_stored_truthy_blueprint :
    (∀ env store task bp, store.lookup task.type = some bp → truthy bp = true →
       plan env store task = (generatePipelineFromBlueprint env task bp, store, 0)) ∧
    (∀ env1 env2 store task,
       truthy (storeGet (plan env1 store task).2.1 task.type) = true →
       (plan env2 (plan env1 store task).2.1 task).2.2 = 0) := by
  constructor
  · intro env store task bp h htr
    have hget : storeGet store task.type = bp := by simp [storeGet, h]
    simp [plan, hget, htr]
  · intro env1 env2 store task htr
    generalize (plan env1 store task).2.1 = store2 at htr ⊢
    simp [plan, htr]

/-- Witness for `plan_reuses_stored_truthy_blueprint`: a stored (truthy)
fallback blueprint is reused with zero synthesis invocations, also on a
second resolution after a first one persisted it. -/
theorem plan_reuses_stored_truthy_blueprint_witness :
    plan planEnv0 [("demo", fallbackBlueprint "demo")] task0 =
      (generatePipelineFromBlueprint planEnv0 task0 (fallbackBlueprint "demo"),
       [("demo", fallbackBlueprint "demo")], 0) ∧
    (plan planEnv0 (plan planEnv0 [] task0).2.1 task0).2.2 = 0 :=
  ⟨plan_reuses_stored_truthy_blueprint.1 planEnv0 _ task0 _ rfl rfl,
   plan_reuses_stored_truthy_blueprint.2 planEnv0 planEnv0 [] task0 rfl⟩

/-- C3 counterexample: with no stored blueprint for `"demo"` and a synthesis
reply with no decodable JSON (and a self-check reply that also fails to
decode), `plan` persists the fixed fallback blueprint under `"demo"`, and a
second resolution for `"demo"` makes no synthesis-oracle invocation — contra
the claim that the fallback is not persisted and synthesis is retried. -/
theorem plan_persists_fallback_counterexample :
    (plan planEnv0 [] task0).2.1.lookup "demo" = some (fallbackBlueprint "demo") ∧
    (plan planEnv0 (plan planEnv0 [] task0).2.1 task0).2.2 = 0 :=
  ⟨rfl, rfl⟩

/-- C3 (amended): when no blueprint is stored for the task category and the
synthesis reply has no decodable JSON (self-check reply also undecodable), the
fixed two-step fallback blueprint is substituted, the pipeline is instantiated
from it (a generic research step then a generic generate step), and the
fallback IS persisted under the category, so a later resolution for the same
category makes no further synthesis-oracle invocation. -/
theorem plan_fallback_substituted_and_persisted (env : PlanEnv)
    (store : List (String × JsVal)) (task : TaskSpecM)
    (hmiss : store.lookup task.type = none)
    (hsynth : env.synthReply = none)
    (hcheck : env.checkReply = none) :
    plan env store task =
      (generatePipelineFromBlueprint env task (fallbackBlueprint task.type),
       (task.type, fallbackBlueprint task.type) :: store, 1) ∧
    (plan env store task).2.1.lookup task.type = some (fallbackBlueprint task.type) ∧
    (∀ env2, (plan env2 (plan env store task).2.1 task).2.2 = 0) ∧
    (∃ p, generatePipelineFromBlueprint env task (fallbackBlueprint task.type) = some p ∧
       p.steps.length = 2 ∧
       p.steps.map PStep.title =
         [.vStr "Research underlying task", .vStr "Generate final output"] ∧
       p.steps.map PStep.blueprintAgent =
         [.vStr "ResearchAgent", .vStr "CodeAgent"] ∧
       p.blueprintSource = .vStr "fallback") := by
  have hbp : createBlueprintForNewType env task.type = fallbackBlueprint task.type := by
    simp only [createBlueprintForNewType, hsynth, hcheck]
    rfl
  have hget : storeGet store task.type = .vUndefined := by
    simp [storeGet, hmiss]
  have hplan1 : plan env store task =
      (generatePipelineFromBlueprint env task (fallbackBlueprint task.type),
       (task.type, fallbackBlueprint task.type) :: store, 1) := by
    simp [plan, hget, hbp, truthy]
  refine ⟨hplan1, ?_, ?_, ?_⟩
  · rw [hplan1]
    simp [List.lookup]
  · intro env2
    rw [hplan1]
    have hget2 : storeGet ((task.type, fallbackBlueprint task.type) :: store)
        task.type = fallbackBlueprint task.type := by
      simp [storeGet, List.lookup]
    have htr2 : truthy (fallbackBlueprint task.type) = true := rfl
    simp [plan, hget2, htr2]
  · exact ⟨_, rfl, rfl, rfl, rfl, rfl⟩

/-- Witness for `plan_fallback_substituted_and_persisted` at a concrete
environment and task. -/
theorem plan_fallback_substituted_and_persisted_witness :
    (plan planEnv0 [] task0).2.1.lookup task0.type =
      some (fallbackBlueprint task0.type) :=
  (plan_fallback_substituted_and_persisted planEnv0 [] task0 rfl rfl rfl).2.1

end Aion.Planner

namespace Aion.Arbitration

/-!
## ToolArbitration (src/modules/ToolArbitration.js)

`decide` computes a rule-based heuristic decision (`_heuristicDecision`,
fixed confidence 0.6), asks the oracle for a refinement (`_llmDecision`,
`null` on any failure), and merges the two (`_mergeDecisions`).

The decoded oracle reply is `Option JsVal` (`none` models both an oracle
channel failure and an unparseable reply — `_llmDecision` returns `null` and
`decide` swallows a throw, in both cases `_mergeDecisions` receives a falsy
value).  `String.toLowerCase` is modelled by ASCII `Char.toLower` (the fixed
keywords the source compares against are lower-case already).
-/

open Aion

/-- JS `hay.includes(needle)` on strings (contiguous substring test). -/
def jsIncludes (hay needle : String) : Bool :=
  go needle.toList hay.toList
where
  /-- Scan every suffix of the haystack for the needle at its head. -/
  go (n : List Char) : List Char → Bool
    | [] => n.isEmpty
    | l@(_ :: rest) => n.isPrefixOf l || go n rest

/-- JS `s.toLowerCase()` (ASCII). -/
def jsToLower (s : String) : String := s.map Char.toLower

/-- The heuristic decision record of `_heuristicDecision`. -/
structure HeuristicDecision where
  primary : String
  secondary : List String
  reason : String
  confidence : ℚ
deriving Repr

/-- Embedding of `ToolArbitration._heuristicDecision`: fixed keyword/category rules over
the lower-cased task type, goal and message type, choosing a primary agent
from the available list; always `confidence = 0.6`. -/
def heuristicDecision (type goal msgType : String) (agents : List String) :
    HeuristicDecision :=
  let t := jsToLower type
  let g := jsToLower goal
  let m := jsToLower msgType
  let has := fun (n : String) => agents.contains n
  let primary : String :=
    if jsIncludes t "create_agent" || jsIncludes g "yeni agent" || m == "agent" then
      if has "AgentCreatorAgent" then "AgentCreatorAgent" else "CodeAgent"
    else if jsIncludes t "create_pipeline" || jsIncludes g "pipeline"
        || jsIncludes g "akış oluştur" then
      if has "PipelineCreatorAgent" then "PipelineCreatorAgent" else "CodeAgent"
    else if jsIncludes t "file" || m == "file_edit" || jsIncludes g "dosya"
        || jsIncludes g "file" then
      if has "FileAgent" then "FileAgent" else "CodeAgent"
    else if jsIncludes t "research" || m == "research" || jsIncludes g "araştır"
        || jsIncludes g "kıyasla" || jsIncludes g "piyasa" then
      if has "ResearchAgent" then "ResearchAgent" else "CodeAgent"
    else if m == "planning" || jsIncludes t "design" then
      if has "PlanAgent" then "PlanAgent" else "CodeAgent"
    else "CodeAgent"
  { primary := primary
    secondary := agents.filter (fun a => a ≠ primary)
    reason := "Heuristic seçimi"
    confidence := 0.6 }

/-- The merged decision record produced by `_mergeDecisions`. -/
structure MergedDecision where
  primary : JsVal
  secondary : JsVal
  reason : JsVal
  confidence : ℚ
  source : String
deriving Repr

/-- The JS-object embedding of the heuristic record, as produced by the
spread `\x7b...heuristic, source\x7d`. -/
def heuristicAsMerged (h : HeuristicDecision) (src : String) : MergedDecision :=
  { primary := .vStr h.primary
    secondary := .vArr (h.secondary.map .vStr)
    reason := .vStr h.reason
    confidence := h.confidence
    source := src }

/-- Coercion `typeof llmDecision.confidence === "number" ? llmDecision.confidence : 0.6`. -/
def llmConfOf (j : JsVal) : ℚ :=
  match getField j "confidence" with
  | .vNum q => q
  | _ => 0.6

/-- Embedding of `ToolArbitration._mergeDecisions`. -/
def mergeDecisions (h : HeuristicDecision) (llm : Option JsVal) : MergedDecision :=
  match llm with
  | none => heuristicAsMerged h "heuristic_only"
  | some j =>
    if truthy j = false || truthy (getField j "primary") = false then
      heuristicAsMerged h "heuristic_only"
    else
      let llmConf := llmConfOf j
      if llmConf < h.confidence then
        heuristicAsMerged h "heuristic_dominate"
      else
        { primary := jsOr (getField j "primary") (.vStr h.primary)
          secondary :=
            match getField j "secondary" with
            | .vArr xs => .vArr xs
            | _ => .vArr (h.secondary.map .vStr)
          reason := jsOr (getField j "reason") (.vStr h.reason)
          confidence := max h.confidence llmConf
          source := "llm_preferred" }

end Aion.Arbitration

namespace Aion.Arbitration

open Aion

/-- Evaluation helper: the scientific literal `0.6` as a raw rational. -/
theorem zeroPointSix_eq : (0.6 : ℚ) = mkRat 3 5 := by
  norm_num [mkRat, Rat.normalize]

/-- C5: the arbitration merge.  The heuristic decision always carries the
fixed confidence 0.6; an absent/unparseable oracle reply (or one without a
truthy `primary`) yields the heuristic decision with source `heuristic_only`;
an oracle-reported confidence strictly below the heuristic confidence yields
the heuristic decision with source `heuristic_dominate`; otherwise the
oracle `primary` and (array-valued) `secondary` fields are adopted with confidence
`max heuristic oracle` and source `llm_preferred`. -/
theorem mergeDecisions_spec :
    (∀ type goal msgType agents,
      (heuristicDecision type goal msgType agents).confidence = 0.6) ∧
    (∀ h : HeuristicDecision,
      mergeDecisions h none = heuristicAsMerged h "heuristic_only") ∧
    (∀ h : HeuristicDecision, ∀ j,
      truthy j = false ∨ truthy (getField j "primary") = false →
      mergeDecisions h (some j) = heuristicAsMerged h "heuristic_only") ∧
    (∀ h : HeuristicDecision, ∀ j c,
      truthy j = true → truthy (getField j "primary") = true →
      getField j "confidence" = .vNum c → c < h.confidence →
      mergeDecisions h (some j) = heuristicAsMerged h "heuristic_dominate") ∧
    (∀ h : HeuristicDecision, ∀ j,
      truthy j = true → truthy (getField j "primary") = true →
      ¬ llmConfOf j < h.confidence →
      (mergeDecisions h (some j)).primary = getField j "primary" ∧
      (∀ xs, getField j "secondary" = .vArr xs →
        (mergeDecisions h (some j)).secondary = .vArr xs) ∧
      (mergeDecisions h (some j)).confidence = max h.confidence (llmConfOf j) ∧
      (mergeDecisions h (some j)).source = "llm_preferred") := by
  refine ⟨fun _ _ _ _ => rfl, fun _ => rfl, ?_, ?_, ?_⟩
  · intro h j hj
    rcases hj with hj | hj <;> simp [mergeDecisions, hj]
  · intro h j c hj hp hc hlt
    simp [mergeDecisions, hj, hp, llmConfOf, hc, hlt]
  · intro h j hj hp hlt
    refine ⟨?_, ?_, ?_, ?_⟩ <;>
      simp [mergeDecisions, hj, hp, hlt, jsOr]
    · intro xs hxs
      simp [hxs]

/-- A concrete decoded oracle reply for the arbitration witness. -/
def llmReply0 : JsVal :=
  .vObj
    [("primary", .vStr "FileAgent"),
     ("secondary", .vArr [.vStr "CodeAgent"]),
     ("confidence", .vNum (mkRat 9 10))]

/-- Witness for `mergeDecisions_spec`: a concrete high-confidence oracle reply
is adopted with source `llm_preferred`, and a parse failure keeps the
heuristic with source `heuristic_only`. -/
theorem mergeDecisions_spec_witness :
    (mergeDecisions (heuristicDecision "" "" "" ["CodeAgent", "FileAgent"])
        (some llmReply0)).source = "llm_preferred" ∧
    mergeDecisions (heuristicDecision "" "" "" ["CodeAgent", "FileAgent"]) none =
      heuristicAsMerged (heuristicDecision "" "" "" ["CodeAgent", "FileAgent"])
        "heuristic_only" := by
  constructor
  · exact (mergeDecisions_spec.2.2.2.2
      (heuristicDecision "" "" "" ["CodeAgent", "FileAgent"]) llmReply0 rfl rfl
      (by rw [show (heuristicDecision "" "" "" ["CodeAgent", "FileAgent"]).confidence
                = (0.6 : ℚ) from rfl, zeroPointSix_eq]
          decide)).2.2.2
  · exact mergeDecisions_spec.2.1 _

end Aion.Arbitration

namespace Aion.Engine

/-!
## ExecutionEngine (src/engine/ExecutionEngine.js, self-healing revision)

`runAgent` redirects the requested executor through `ToolArbitration`
(`finalAgentName = arbitration.primary`), runs the agent instance, and on a
thrown fault records the error, runs the advisory `autoHeal` pass and
re-throws unless `autoHeal` produced a non-null `fixedOutput`.  `autoHeal`
asks the oracle for a root-cause/patch suggestion, logs it, and returns
`\x7bfixedOutput: null\x7d` on both its success and its failure path.

The environment models the effectful calls: `arbPrimary` the arbitration
redirect, `runInstance` the `getAgentInstance` + `instance.run` +
`compressIfLong` chain for the final agent (`Except.error` models a thrown
fault), `healOracle` the reasoner call inside `autoHeal` (`Except.error`
models a throw anywhere in the heal pass). -/

open Aion

/-- Environment of one `ExecutionEngine.runAgent` call. -/
structure ExecEnv where
  arbPrimary : String → String
  runInstance : String → Except String JsVal
  healOracle : String → String → Except String JsVal

/-- Embedding of `ExecutionEngine.autoHeal` (result value): the oracle suggestion is only
logged; `fixedOutput` is `null` on the success path, and `null` again when
the heal pass itself throws. -/
def autoHeal (env : ExecEnv) (agentName : String) (err : String) :
    Option JsVal :=
  match env.healOracle agentName err with
  | .ok _suggestion => none
  | .error _ => none

/-- Embedding of `ExecutionEngine.runAgent`: arbitration redirect, then the agent run; on a
thrown fault the advisory heal pass runs and the original fault is re-thrown
unless `fixedOutput` is non-null. -/
def runAgent (env : ExecEnv) (agentName : String) : Except String JsVal :=
  let finalAgentName := env.arbPrimary agentName
  match env.runInstance finalAgentName with
  | .ok output => .ok output
  | .error err =>
    match autoHeal env finalAgentName err with
    | some fixed => .ok fixed
    | none => .error err

/-- C8: auto-heal is advisory only — `fixedOutput` is always null (also when
the heal pass itself fails), and a thrown fault is always re-thrown to the
caller unchanged; `runAgent` never returns a healed output. -/
theorem runAgent_rethrows_original_fault :
    (∀ env agentName err, autoHeal env agentName err = none) ∧
    (∀ env agentName err,
      env.runInstance (env.arbPrimary agentName) = .error err →
      runAgent env agentName = .error err) := by
  have hheal : ∀ env agentName err, autoHeal env agentName err = none := by
    intro env agentName err
    unfold autoHeal
    cases env.healOracle agentName err <;> rfl
  refine ⟨hheal, ?_⟩
  intro env agentName err hrun
  simp only [runAgent]
  rw [hrun]
  simp [hheal]

/-- A concrete engine environment whose executor throws. -/
def execEnv0 : ExecEnv :=
  { arbPrimary := fun n => n
    runInstance := fun _ => .error "boom"
    healOracle := fun _ _ => .ok (.vStr "suggestion") }

/-- Witness for `runAgent_rethrows_original_fault` at a concrete throwing
executor. -/
theorem runAgent_rethrows_original_fault_witness :
    runAgent execEnv0 "CodeAgent" = .error "boom" :=
  runAgent_rethrows_original_fault.2 execEnv0 "CodeAgent" "boom" rfl

end Aion.Engine

namespace Aion.Controller

/-!
## ControllerLayer (src/brain/ControllerLayer.js)

`runPipeline` executes `pipelineSpec.steps` strictly in order.  Per step it
runs up to `maxRetry = step.retry ?? 1` attempts: each attempt invokes the
executor (`executionEngine.runAgent`, which may throw), then the step
self-check oracle; a failed self-check or a thrown fault retries until the
budget is exhausted.  A step that does not succeed marks the run `error` with
`failedStep` and breaks out of the step loop.  After the loop the status is
finalized (`success` unless `error`) and the pipeline-level review oracle is
consulted, decoded defensively with `safeParseSelfCheckPipeline`.

Environment: `exec sid a` is the outcome of the executor invocation for step
`sid` on attempt `a` (`Except.error` models a throw), `stepCheck sid a` the
decoded step self-check reply for that attempt, `pipeCheck` the decoded
pipeline review reply.

The JS `for (let attempt = 1; attempt <= maxRetry; attempt++)` loop over the
rational `maxRetry` executes its body for the integer attempts
`1 … max 0 ⌊maxRetry⌋`; `loopCount` computes that bound and `stepGo` recurses
on it, testing `attempt < maxRetry` inside the body exactly as the source
does. -/

open Aion

/-- A pipeline step as consumed by `runPipeline` (`retry = none` models a
nullish `step.retry`). -/
structure Step where
  id : String
  title : JsVal
  agent : String
  retry : Option ℚ

/-- Environment of one `runPipeline` call. -/
structure RunEnv where
  exec : String → Nat → Except String JsVal
  stepCheck : String → Nat → Option JsVal
  pipeCheck : Option JsVal

/-- Decoded result of the step self-check (`safeParseSelfCheckStep`). -/
structure StepCheckResult where
  ok : Bool
  reason : JsVal
deriving Repr

/-- Embedding of `ControllerLayer.safeParseSelfCheckStep`: `ok` is the truthiness of the
decoded `ok` field, `reason` is `json.reason || ""`; a decode failure is
treated as a passing check. -/
def safeParseSelfCheckStep (reply : Option JsVal) : StepCheckResult :=
  match reply with
  | some j =>
    { ok := truthy (getField j "ok")
      reason := jsOr (getField j "reason") (.vStr "") }
  | none =>
    { ok := true
      reason := .vStr "Self-check parse fallback: geçerli sayıldı." }

/-- Decoded result of the pipeline review (`safeParseSelfCheckPipeline`). -/
structure PipeCheckResult where
  ok : Bool
  summary : JsVal
deriving Repr

/-- Embedding of `ControllerLayer.safeParseSelfCheckPipeline`: `ok` is the decoded `ok`
field when it is a boolean and `status === "success"` otherwise (also on a
decode failure); `summary` is `json.summary || ""`. -/
def safeParseSelfCheckPipeline (reply : Option JsVal) (status : String) :
    PipeCheckResult :=
  match reply with
  | some j =>
    { ok :=
        match getField j "ok" with
        | .vBool b => b
        | _ => status == "success"
      summary := jsOr (getField j "summary") (.vStr "") }
  | none =>
    { ok := status == "success"
      summary := .vStr "Pipeline self-check parse fallback." }

/-- One `attemptLog` record. -/
structure AttemptLog where
  attempt : Nat
  rawOutput : Option JsVal
  selfCheck : Option StepCheckResult
  error : Option String
  result : String
deriving Repr

/-- One `stepLog` record (timestamps omitted). -/
structure StepLog where
  id : String
  title : JsVal
  agent : String
  attempts : List AttemptLog
  success : Bool

/-- The `context[step.id]` entry recorded after a step. -/
structure StepCtxEntry where
  success : Bool
  output : Option JsVal
  error : Option String

/-- Mutable state of the per-step attempt loop
(`success` / `lastOutput` / `lastError` plus the accumulated attempt log). -/
structure StepLoopState where
  success : Bool
  lastOutput : Option JsVal
  lastError : Option String
  attempts : List AttemptLog

/-- Number of executions of the body of
`for (let attempt = 1; attempt <= maxRetry; attempt++)` (ignoring `break`):
`max 0 ⌊maxRetry⌋`, computed on the raw rational. -/
def loopCount (q : ℚ) : Nat := q.num.toNat / q.den

/-- The body of the attempt loop, recursing on the remaining iteration count;
`attempt` is the 1-based loop counter.  A successful attempt `break`s. -/
def stepGo (env : RunEnv) (sid : String) (maxRetry : ℚ) :
    Nat → Nat → StepLoopState → StepLoopState
  | 0, _, st => st
  | fuel + 1, attempt, st =>
    match env.exec sid attempt with
    | .ok output =>
      let sc := safeParseSelfCheckStep (env.stepCheck sid attempt)
      if sc.ok = false ∧ (attempt : ℚ) < maxRetry then
        stepGo env sid maxRetry fuel (attempt + 1)
          { st with
            attempts := st.attempts ++
              [⟨attempt, some output, some sc, none, "selfcheck_failed_retrying"⟩] }
      else if sc.ok = false then
        stepGo env sid maxRetry fuel (attempt + 1)
          { st with
            lastOutput := some output
            lastError := some "Self-check başarısız."
            attempts := st.attempts ++
              [⟨attempt, some output, some sc, none, "selfcheck_failed_giveup"⟩] }
      else
        { st with
          success := true
          lastOutput := some output
          attempts := st.attempts ++
            [⟨attempt, some output, some sc, none, "success"⟩] }
    | .error e =>
      stepGo env sid maxRetry fuel (attempt + 1)
        { st with
          lastError := some e
          attempts := st.attempts ++
            [⟨attempt, none, none, some e,
              if (attempt : ℚ) < maxRetry then "error_retrying" else "error_giveup"⟩] }

/-- The whole attempt loop of one step (`maxRetry = step.retry ?? 1`). -/
def runStepAttempts (env : RunEnv) (s : Step) : StepLoopState :=
  let maxRetry : ℚ := s.retry.getD 1
  stepGo env s.id maxRetry (loopCount maxRetry) 1 ⟨false, none, none, []⟩

/-- The `stepLog` built for a step from its finished attempt loop. -/
def mkStepLog (s : Step) (st : StepLoopState) : StepLog :=
  { id := s.id, title := s.title, agent := s.agent
    attempts := st.attempts, success := st.success }

/-- The `context[step.id]` entry built for a step. -/
def mkCtxEntry (st : StepLoopState) : StepCtxEntry :=
  { success := st.success, output := st.lastOutput, error := st.lastError }

/-- The executor invocations made while running one step, in order. -/
def stepTrace (env : RunEnv) (s : Step) : List (String × Nat) :=
  (runStepAttempts env s).attempts.map (fun a => (s.id, a.attempt))

/-- The step loop of `runPipeline`: sequential execution with fail-fast abort.
Accumulators mirror `status` / `failedStep` / `context` / `logs`; the last
component is the executor invocation trace. -/
def runSteps (env : RunEnv) :
    List Step → String → Option String → List (String × StepCtxEntry) →
    List StepLog → List (String × Nat) →
    String × Option String × List (String × StepCtxEntry) × List StepLog ×
      List (String × Nat)
  | [], status, failed, ctx, logs, tr => (status, failed, ctx, logs, tr)
  | s :: rest, status, failed, ctx, logs, tr =>
    let st := runStepAttempts env s
    let ctx1 := ctx ++ [(s.id, mkCtxEntry st)]
    let logs1 := logs ++ [mkStepLog s st]
    let tr1 := tr ++ st.attempts.map (fun a => (s.id, a.attempt))
    if st.success then
      runSteps env rest status failed ctx1 logs1 tr1
    else
      ("error", some s.id, ctx1, logs1, tr1)

/-- The run result of `runPipeline` (timestamps omitted). -/
structure RunResult where
  status : String
  failedStep : Option String
  context : List (String × StepCtxEntry)
  logs : List StepLog
  selfCheck : PipeCheckResult

/-- Embedding of `ControllerLayer.runPipeline`: run the steps in order with fail-fast
abort, finalize the status, consult the pipeline review oracle, and return
the result together with the executor invocation trace. -/
def runPipeline (env : RunEnv) (steps : List Step) :
    RunResult × List (String × Nat) :=
  let r := runSteps env steps "running" none [] [] []
  let status := if r.1 ≠ "error" then "success" else r.1
  let pipelineSelfCheck := safeParseSelfCheckPipeline env.pipeCheck status
  ({ status := status
     failedStep := r.2.1
     context := r.2.2.1
     logs := r.2.2.2.1
     selfCheck := pipelineSelfCheck }, r.2.2.2.2)

end Aion.Controller

namespace Aion.Controller

open Aion

/-- A step succeeds when its attempt loop ends with `success = true`. -/
def stepOK (env : RunEnv) (s : Step) : Prop :=
  (runStepAttempts env s).success = true

/-- The attempt loop never reads the pipeline review reply. -/
theorem stepGo_pipeCheck_irrel (env : RunEnv) (p : Option JsVal)
    (sid : String) (maxRetry : ℚ) :
    ∀ fuel attempt st,
      stepGo ⟨env.exec, env.stepCheck, p⟩ sid maxRetry fuel attempt st =
        stepGo env sid maxRetry fuel attempt st := by
  intro fuel
  induction fuel with
  | zero => intro attempt st; rfl
  | succ n ih =>
    intro attempt st
    simp only [stepGo]
    cases env.exec sid attempt with
    | ok output =>
      by_cases h1 : (safeParseSelfCheckStep (env.stepCheck sid attempt)).ok = false
          ∧ (attempt : ℚ) < maxRetry
      · simp only [if_pos h1, ih]
      · by_cases h2 : (safeParseSelfCheckStep (env.stepCheck sid attempt)).ok = false
        · simp only [if_neg h1, if_pos h2, ih]
        · simp only [if_neg h1, if_neg h2]
    | error e => simp only [ih]

/-- The per-step loop state never reads the pipeline review reply. -/
theorem runStepAttempts_pipeCheck_irrel (env : RunEnv) (p : Option JsVal)
    (s : Step) :
    runStepAttempts ⟨env.exec, env.stepCheck, p⟩ s = runStepAttempts env s := by
  simp only [runStepAttempts]
  exact stepGo_pipeCheck_irrel env p s.id _ _ _ _

/-- When every executor invocation of the step throws, the attempt loop keeps
`success` as it was and appends one attempt record per remaining iteration. -/
theorem stepGo_all_throw (env : RunEnv) (sid : String) (maxRetry : ℚ)
    (msg : Nat → String) (hthrow : ∀ a, env.exec sid a = .error (msg a)) :
    ∀ fuel attempt st,
      (stepGo env sid maxRetry fuel attempt st).success = st.success ∧
      (stepGo env sid maxRetry fuel attempt st).attempts.length =
        st.attempts.length + fuel := by
  intro fuel
  induction fuel with
  | zero => intro attempt st; exact ⟨rfl, rfl⟩
  | succ n ih =>
    intro attempt st
    simp only [stepGo, hthrow attempt]
    have := ih (attempt + 1)
      { st with
        lastError := some (msg attempt)
        attempts := st.attempts ++
          [⟨attempt, none, none, some (msg attempt),
            if (attempt : ℚ) < maxRetry then "error_retrying" else "error_giveup"⟩] }
    simp only [List.length_append, List.length_cons, List.length_nil] at this
    exact ⟨this.1, by omega⟩

end Aion.Controller

namespace Aion.Controller

open Aion

/-- Evaluation of `loopCount` on a natural retry budget gives that budget. -/
theorem loopCount_natCast (N : ℕ) : loopCount (N : ℚ) = N := by
  simp [loopCount, Rat.num_natCast, Rat.den_natCast]

/-- A step with natural retry budget `N` whose executor throws on every
attempt fails after exactly `N` logged attempts. -/
theorem runStepAttempts_all_throw (env : RunEnv) (s : Step) (N : ℕ)
    (msg : Nat → String)
    (hretry : s.retry = some (N : ℚ))
    (hthrow : ∀ a, env.exec s.id a = .error (msg a)) :
    (runStepAttempts env s).success = false ∧
    (runStepAttempts env s).attempts.length = N := by
  simp only [runStepAttempts, hretry, Option.getD_some, loopCount_natCast]
  have h := stepGo_all_throw env s.id ((N : ℚ)) msg hthrow N 1 ⟨false, none, none, []⟩
  simpa using h

/-- In the self-check retry scenario (executor always succeeds, self-check
fails strictly before attempt `N` and passes at attempt `N ≤ B`), the attempt
loop with budget `B` succeeds and appends exactly `N + 1 - attempt` further
records when started at `attempt ∈ [1, N]`. -/
theorem stepGo_selfcheck_pass (env : RunEnv) (sid : String) (B N : ℕ)
    (out : Nat → JsVal)
    (hexec : ∀ a, env.exec sid a = .ok (out a))
    (hNB : N ≤ B)
    (hscF : ∀ a, a < N → (safeParseSelfCheckStep (env.stepCheck sid a)).ok = false)
    (hscT : (safeParseSelfCheckStep (env.stepCheck sid N)).ok = true) :
    ∀ fuel attempt st, attempt + fuel = B + 1 → 1 ≤ attempt → attempt ≤ N →
      (stepGo env sid (B : ℚ) fuel attempt st).success = true ∧
      (stepGo env sid (B : ℚ) fuel attempt st).attempts.length =
        st.attempts.length + (N + 1 - attempt) := by
  intro fuel
  induction fuel with
  | zero =>
    intro attempt st hsum h1 hN
    omega
  | succ n ih =>
    intro attempt st hsum h1 hN
    simp only [stepGo, hexec attempt]
    rcases eq_or_lt_of_le hN with hEq | hLt
    · subst hEq
      have hcond : ¬ ((safeParseSelfCheckStep (env.stepCheck sid attempt)).ok = false
          ∧ (attempt : ℚ) < (B : ℚ)) := by
        intro hc
        rw [hscT] at hc
        exact absurd hc.1 (by simp)
      have hcond2 : ¬ (safeParseSelfCheckStep (env.stepCheck sid attempt)).ok = false := by
        rw [hscT]; simp
      rw [if_neg hcond, if_neg hcond2]
      constructor
      · rfl
      · simp
    · have hsc := hscF attempt hLt
      have hlt : (attempt : ℚ) < (B : ℚ) := by
        exact_mod_cast lt_of_lt_of_le hLt hNB
      rw [if_pos ⟨hsc, hlt⟩]
      have := ih (attempt + 1)
        { st with
          attempts := st.attempts ++
            [⟨attempt, some (out attempt),
              some (safeParseSelfCheckStep (env.stepCheck sid attempt)), none,
              "selfcheck_failed_retrying"⟩] }
        (by omega) (by omega) (by omega)
      refine ⟨this.1, ?_⟩
      rw [this.2]
      simp only [List.length_append, List.length_cons, List.length_nil]
      omega

/-- A step with natural retry budget `B` whose executor always succeeds and
whose self-check fails on attempts `1 … N-1` and passes on attempt `N ≤ B`
(`1 ≤ N`) succeeds after exactly `N` logged attempts. -/
theorem runStepAttempts_selfcheck_pass (env : RunEnv) (s : Step) (B N : ℕ)
    (out : Nat → JsVal)
    (hretry : s.retry = some (B : ℚ))
    (hexec : ∀ a, env.exec s.id a = .ok (out a))
    (hN1 : 1 ≤ N) (hNB : N ≤ B)
    (hscF : ∀ a, a < N → (safeParseSelfCheckStep (env.stepCheck s.id a)).ok = false)
    (hscT : (safeParseSelfCheckStep (env.stepCheck s.id N)).ok = true) :
    (runStepAttempts env s).success = true ∧
    (runStepAttempts env s).attempts.length = N := by
  have h := stepGo_selfcheck_pass env s.id B N out hexec hNB hscF hscT
    (loopCount (B : ℚ)) 1 ⟨false, none, none, []⟩
    (by rw [loopCount_natCast]; omega) (le_refl 1) hN1
  simp only [runStepAttempts, hretry, Option.getD_some]
  refine ⟨h.1, ?_⟩
  rw [h.2]
  simp

end Aion.Controller

namespace Aion.Controller

open Aion

/-- The step logs produced by a list of steps that all get processed. -/
def stepLogsOf (env : RunEnv) (steps : List Step) : List StepLog :=
  steps.map (fun t => mkStepLog t (runStepAttempts env t))

/-- The context entries produced by a list of steps that all get processed. -/
def ctxOf (env : RunEnv) (steps : List Step) : List (String × StepCtxEntry) :=
  steps.map (fun t => (t.id, mkCtxEntry (runStepAttempts env t)))

/-- The executor invocations produced by a list of steps that all get
processed. -/
def traceOf (env : RunEnv) (steps : List Step) : List (String × Nat) :=
  steps.flatMap (stepTrace env)

/-- Every invocation recorded for a single step carries the id of that step. -/
theorem stepTrace_fst (env : RunEnv) (s : Step) :
    ∀ p ∈ stepTrace env s, p.1 = s.id := by
  intro p hp
  simp only [stepTrace, List.mem_map] at hp
  obtain ⟨a, _, ha⟩ := hp
  rw [← ha]

/-- Every invocation recorded for a list of steps carries one of their ids. -/
theorem traceOf_fst_mem (env : RunEnv) (steps : List Step) :
    ∀ p ∈ traceOf env steps, p.1 ∈ steps.map Step.id := by
  intro p hp
  simp only [traceOf, List.mem_flatMap] at hp
  obtain ⟨t, ht, hpt⟩ := hp
  rw [stepTrace_fst env t p hpt]
  exact List.mem_map_of_mem _ ht

/-- Unfolding `runSteps` over a successful head step. -/
theorem runSteps_cons_succ (env : RunEnv) (s : Step) (rest : List Step)
    (status : String) (failed : Option String)
    (ctx : List (String × StepCtxEntry)) (logs : List StepLog)
    (tr : List (String × Nat))
    (h : (runStepAttempts env s).success = true) :
    runSteps env (s :: rest) status failed ctx logs tr =
      runSteps env rest status failed
        (ctx ++ [(s.id, mkCtxEntry (runStepAttempts env s))])
        (logs ++ [mkStepLog s (runStepAttempts env s)])
        (tr ++ stepTrace env s) := by
  simp [runSteps, h, stepTrace]

/-- Unfolding `runSteps` over a failing head step: fail-fast abort. -/
theorem runSteps_cons_fail (env : RunEnv) (s : Step) (rest : List Step)
    (status : String) (failed : Option String)
    (ctx : List (String × StepCtxEntry)) (logs : List StepLog)
    (tr : List (String × Nat))
    (h : (runStepAttempts env s).success = false) :
    runSteps env (s :: rest) status failed ctx logs tr =
      ("error", some s.id,
       ctx ++ [(s.id, mkCtxEntry (runStepAttempts env s))],
       logs ++ [mkStepLog s (runStepAttempts env s)],
       tr ++ stepTrace env s) := by
  simp [runSteps, h, stepTrace]

/-- Processing a block of successful steps accumulates their logs, context
entries and invocations and moves on. -/
theorem runSteps_pre (env : RunEnv) :
    ∀ (pre rest : List Step) (status : String) (failed : Option String)
      (ctx : List (String × StepCtxEntry)) (logs : List StepLog)
      (tr : List (String × Nat)),
      (∀ t ∈ pre, stepOK env t) →
      runSteps env (pre ++ rest) status failed ctx logs tr =
        runSteps env rest status failed (ctx ++ ctxOf env pre)
          (logs ++ stepLogsOf env pre) (tr ++ traceOf env pre) := by
  intro pre
  induction pre with
  | nil =>
    intro rest status failed ctx logs tr _
    simp [ctxOf, stepLogsOf, traceOf]
  | cons t pre ih =>
    intro rest status failed ctx logs tr hok
    have ht : (runStepAttempts env t).success = true := hok t (by simp)
    rw [List.cons_append, runSteps_cons_succ env t _ _ _ _ _ _ ht,
      ih rest status failed _ _ _ (fun u hu => hok u (by simp [hu]))]
    simp [ctxOf, stepLogsOf, traceOf, List.append_assoc]

/-- The first component of `runSteps` is the incoming status when every step
succeeds and `"error"` otherwise. -/
theorem runSteps_status (env : RunEnv) :
    ∀ (steps : List Step) (status : String) (failed : Option String)
      (ctx : List (String × StepCtxEntry)) (logs : List StepLog)
      (tr : List (String × Nat)),
      ((∀ s ∈ steps, stepOK env s) →
        (runSteps env steps status failed ctx logs tr).1 = status) ∧
      (¬ (∀ s ∈ steps, stepOK env s) →
        (runSteps env steps status failed ctx logs tr).1 = "error") := by
  intro steps
  induction steps with
  | nil =>
    intro status failed ctx logs tr
    exact ⟨fun _ => rfl, fun h => absurd (by simp) h⟩
  | cons s rest ih =>
    intro status failed ctx logs tr
    by_cases hs : (runStepAttempts env s).success = true
    · rw [runSteps_cons_succ env s rest status failed ctx logs tr hs]
      constructor
      · intro hall
        exact (ih _ _ _ _ _).1 (fun u hu => hall u (by simp [hu]))
      · intro hnall
        refine (ih _ _ _ _ _).2 (fun hrest => hnall ?_)
        intro u hu
        rcases List.mem_cons.mp hu with rfl | hu
        · exact hs
        · exact hrest u hu
    · have hs' : (runStepAttempts env s).success = false :=
        Bool.not_eq_true _ ▸ (by simpa using hs)
      rw [runSteps_cons_fail env s rest status failed ctx logs tr hs']
      constructor
      · intro hall
        exact absurd (hall s (by simp)) hs
      · intro _
        rfl

end Aion.Controller

namespace Aion.Controller

open Aion

/-- A run whose steps all succeed: status `success`, no failed step, logs,
context and invocations accumulated over the whole plan. -/
theorem runPipeline_all_ok (env : RunEnv) (steps : List Step)
    (h : ∀ s ∈ steps, stepOK env s) :
    runPipeline env steps =
      ({ status := "success", failedStep := none, context := ctxOf env steps,
         logs := stepLogsOf env steps,
         selfCheck := safeParseSelfCheckPipeline env.pipeCheck "success" },
       traceOf env steps) := by
  have hr : runSteps env steps "running" none [] [] [] =
      ("running", none, ctxOf env steps, stepLogsOf env steps, traceOf env steps) := by
    have := runSteps_pre env steps [] "running" none [] [] [] h
    simpa [runSteps] using this
  simp [runPipeline, hr]

/-- A run whose first non-succeeding step is `s` (all of `pre` succeeds):
status `error`, `failedStep = s.id`, logs/context/invocations stop at `s`. -/
theorem runPipeline_fail_at (env : RunEnv) (pre post : List Step) (s : Step)
    (hpre : ∀ t ∈ pre, stepOK env t)
    (hfail : (runStepAttempts env s).success = false) :
    runPipeline env (pre ++ s :: post) =
      ({ status := "error", failedStep := some s.id,
         context := ctxOf env pre ++ [(s.id, mkCtxEntry (runStepAttempts env s))],
         logs := stepLogsOf env pre ++ [mkStepLog s (runStepAttempts env s)],
         selfCheck := safeParseSelfCheckPipeline env.pipeCheck "error" },
       traceOf env pre ++ stepTrace env s) := by
  have hr : runSteps env (pre ++ s :: post) "running" none [] [] [] =
      ("error", some s.id,
       ctxOf env pre ++ [(s.id, mkCtxEntry (runStepAttempts env s))],
       stepLogsOf env pre ++ [mkStepLog s (runStepAttempts env s)],
       traceOf env pre ++ stepTrace env s) := by
    rw [runSteps_pre env pre (s :: post) "running" none [] [] [] hpre,
      runSteps_cons_fail env s post "running" none _ _ _ hfail]
    simp
  simp [runPipeline, hr]

/-- C1: a step with retry budget `N ≥ 1` whose executor throws on every
invocation attempt is attempted exactly `N` times (exactly `N` executor
invocations, exactly `N` attempt records in its log), then marked
unsuccessful, and the run is marked `error` at that step. -/
theorem runPipeline_exhausts_retry_budget (env : RunEnv)
    (pre post : List Step) (s : Step) (N : ℕ) (msg : Nat → String)
    (hids : ((pre ++ s :: post).map Step.id).Nodup)
    (hpre : ∀ t ∈ pre, stepOK env t)
    (hretry : s.retry = some (N : ℚ)) (hN : 1 ≤ N)
    (hthrow : ∀ a, env.exec s.id a = .error (msg a)) :
    ((runPipeline env (pre ++ s :: post)).2.countP (fun p => p.1 == s.id)) = N ∧
    (∃ L, (runPipeline env (pre ++ s :: post)).1.logs.getLast? = some L ∧
      L.id = s.id ∧ L.attempts.length = N ∧ L.success = false) ∧
    (runPipeline env (pre ++ s :: post)).1.status = "error" ∧
    (runPipeline env (pre ++ s :: post)).1.failedStep = some s.id := by
  have hstep := runStepAttempts_all_throw env s N msg hretry hthrow
  have hrun := runPipeline_fail_at env pre post s hpre hstep.1
  have hsid : s.id ∉ pre.map Step.id := by
    have h2 : (pre.map Step.id ++ s.id :: post.map Step.id).Nodup := by
      simpa using hids
    intro hmem
    exact (List.nodup_append.mp h2).2.2 hmem (by simp)
  refine ⟨?_, ⟨mkStepLog s (runStepAttempts env s), ?_, rfl, hstep.2, hstep.1⟩, ?_, ?_⟩
  · rw [hrun]
    rw [List.countP_append]
    have hc0 : (traceOf env pre).countP (fun p => p.1 == s.id) = 0 := by
      rw [List.countP_eq_zero]
      intro p hp
      have := traceOf_fst_mem env pre p hp
      simp only [beq_iff_eq]
      intro hps
      exact hsid (hps ▸ this)
    have hcall : (stepTrace env s).countP (fun p => p.1 == s.id) =
        (stepTrace env s).length := by
      rw [List.countP_eq_length]
      intro p hp
      simp [stepTrace_fst env s p hp]
    rw [hc0, hcall]
    simp [stepTrace, hstep.2]
  · rw [hrun]
    simp [List.getLast?_concat]
  · rw [hrun]
  · rw [hrun]

/-- Witness environment: an executor that always throws. -/
def envThrow : RunEnv :=
  ⟨fun _ _ => .error "boom", fun _ _ => none, none⟩

/-- Witness step with retry budget 2. -/
def stepRetry2 : Step := ⟨"s1", .vStr "step one", "CodeAgent", some ((2 : ℕ) : ℚ)⟩

/-- Witness for `runPipeline_exhausts_retry_budget`: a single-step plan with
budget 2 and an always-throwing executor makes exactly 2 invocations and
fails. -/
theorem runPipeline_exhausts_retry_budget_witness :
    ((runPipeline envThrow ([] ++ stepRetry2 :: [])).2.countP
      (fun p => p.1 == "s1")) = 2 ∧
    (runPipeline envThrow ([] ++ stepRetry2 :: [])).1.status = "error" := by
  have h := runPipeline_exhausts_retry_budget envThrow [] [] stepRetry2 2
    (fun _ => "boom") (by simp) (by simp) rfl (by omega) (fun a => rfl)
  exact ⟨h.1, h.2.2.1⟩

end Aion.Controller

namespace Aion.Controller

open Aion

/-- C2: as soon as one step exhausts its attempts without success, the run is
`error` with that step as `failedStep`, and no executor of any later step in
the plan order is ever invoked. -/
theorem runPipeline_fail_fast (env : RunEnv) (pre post : List Step) (s : Step)
    (hids : ((pre ++ s :: post).map Step.id).Nodup)
    (hpre : ∀ t ∈ pre, stepOK env t)
    (hfail : (runStepAttempts env s).success = false) :
    (runPipeline env (pre ++ s :: post)).1.status = "error" ∧
    (runPipeline env (pre ++ s :: post)).1.failedStep = some s.id ∧
    ∀ t ∈ post, ∀ a, (t.id, a) ∉ (runPipeline env (pre ++ s :: post)).2 := by
  have hrun := runPipeline_fail_at env pre post s hpre hfail
  have h2 : (pre.map Step.id ++ s.id :: post.map Step.id).Nodup := by
    simpa using hids
  obtain ⟨h1, h3, hdisj⟩ := List.nodup_append.mp h2
  refine ⟨by rw [hrun], by rw [hrun], ?_⟩
  intro t ht a hmem
  rw [hrun] at hmem
  rcases List.mem_append.mp hmem with hm | hm
  · have hfst := traceOf_fst_mem env pre _ hm
    exact hdisj hfst (by
      simp only [List.mem_cons]
      exact Or.inr (List.mem_map_of_mem _ ht))
  · have hfst := stepTrace_fst env s _ hm
    have hspost : s.id ∉ post.map Step.id := (List.nodup_cons.mp h3).1
    exact hspost (hfst ▸ List.mem_map_of_mem _ ht)

/-- Witness step that will never be reached. -/
def stepLater : Step := ⟨"s2", .vStr "step two", "CodeAgent", some ((1 : ℕ) : ℚ)⟩

/-- Witness for `runPipeline_fail_fast`: in the two-step plan
`[stepRetry2, stepLater]` with an always-throwing executor, the run fails at
`"s1"` and the executor of `"s2"` is never invoked. -/
theorem runPipeline_fail_fast_witness :
    (runPipeline envThrow ([] ++ stepRetry2 :: [stepLater])).1.failedStep =
      some "s1" ∧
    ("s2", 1) ∉ (runPipeline envThrow ([] ++ stepRetry2 :: [stepLater])).2 := by
  have h := runPipeline_fail_fast envThrow [] [stepLater] stepRetry2
    (by simp [stepRetry2, stepLater]) (by simp)
    (runStepAttempts_all_throw envThrow stepRetry2 2 (fun _ => "boom") rfl
      (fun a => rfl)).1
  exact ⟨h.2.1, h.2.2 stepLater (by simp) 1⟩

end Aion.Controller

namespace Aion.Controller

open Aion

/-- The function `runSteps` only ever appends to the incoming logs. -/
theorem runSteps_logs_mono (env : RunEnv) :
    ∀ (steps : List Step) (status : String) (failed : Option String)
      (ctx : List (String × StepCtxEntry)) (logs : List StepLog)
      (tr : List (String × Nat)),
      ∃ suffix,
        (runSteps env steps status failed ctx logs tr).2.2.2.1 = logs ++ suffix := by
  intro steps
  induction steps with
  | nil =>
    intro status failed ctx logs tr
    exact ⟨[], by simp [runSteps]⟩
  | cons s rest ih =>
    intro status failed ctx logs tr
    by_cases hs : (runStepAttempts env s).success = true
    · rw [runSteps_cons_succ env s rest status failed ctx logs tr hs]
      obtain ⟨suffix, hsuf⟩ := ih status failed
        (ctx ++ [(s.id, mkCtxEntry (runStepAttempts env s))])
        (logs ++ [mkStepLog s (runStepAttempts env s)]) (tr ++ stepTrace env s)
      exact ⟨mkStepLog s (runStepAttempts env s) :: suffix, by
        rw [hsuf]; simp⟩
    · have hs' : (runStepAttempts env s).success = false := by simpa using hs
      rw [runSteps_cons_fail env s rest status failed ctx logs tr hs']
      exact ⟨[mkStepLog s (runStepAttempts env s)], rfl⟩

/-- The head of the remaining step list always gets a log record. -/
theorem runSteps_head_logged (env : RunEnv) (t : Step) (ts : List Step)
    (status : String) (failed : Option String)
    (ctx : List (String × StepCtxEntry)) (logs : List StepLog)
    (tr : List (String × Nat)) :
    ∃ tail, (runSteps env (t :: ts) status failed ctx logs tr).2.2.2.1 =
      logs ++ mkStepLog t (runStepAttempts env t) :: tail := by
  by_cases hs : (runStepAttempts env t).success = true
  · rw [runSteps_cons_succ env t ts status failed ctx logs tr hs]
    obtain ⟨suffix, hsuf⟩ := runSteps_logs_mono env ts status failed
      (ctx ++ [(t.id, mkCtxEntry (runStepAttempts env t))])
      (logs ++ [mkStepLog t (runStepAttempts env t)]) (tr ++ stepTrace env t)
    exact ⟨suffix, by rw [hsuf]; simp⟩
  · have hs' : (runStepAttempts env t).success = false := by simpa using hs
    rw [runSteps_cons_fail env t ts status failed ctx logs tr hs']
    exact ⟨[], by simp⟩

/-- The failed-step marker of `runSteps` is the incoming one or the id of one
of the processed steps. -/
theorem runSteps_failed_mem (env : RunEnv) :
    ∀ (steps : List Step) (status : String) (failed : Option String)
      (ctx : List (String × StepCtxEntry)) (logs : List StepLog)
      (tr : List (String × Nat)),
      (runSteps env steps status failed ctx logs tr).2.1 = failed ∨
      ∃ t ∈ steps, (runSteps env steps status failed ctx logs tr).2.1 = some t.id := by
  intro steps
  induction steps with
  | nil =>
    intro status failed ctx logs tr
    exact Or.inl rfl
  | cons s rest ih =>
    intro status failed ctx logs tr
    by_cases hs : (runStepAttempts env s).success = true
    · rw [runSteps_cons_succ env s rest status failed ctx logs tr hs]
      rcases ih status failed (ctx ++ [(s.id, mkCtxEntry (runStepAttempts env s))])
        (logs ++ [mkStepLog s (runStepAttempts env s)]) (tr ++ stepTrace env s) with
        h | ⟨t, ht, hres⟩
      · exact Or.inl h
      · exact Or.inr ⟨t, by simp [ht], hres⟩
    · have hs' : (runStepAttempts env s).success = false := by simpa using hs
      rw [runSteps_cons_fail env s rest status failed ctx logs tr hs']
      exact Or.inr ⟨s, by simp, rfl⟩

/-- C4: a step with budget `B ≥ N ≥ 1` whose executor always succeeds and
whose self-check fails on attempts `1 … N-1` and passes on attempt `N` is
marked successful after exactly `N` attempts, the run does not fail at that
step, and execution proceeds to the next step of the plan. -/
theorem runPipeline_selfcheck_retry_then_succeed (env : RunEnv)
    (pre post : List Step) (s : Step) (B N : ℕ) (out : Nat → JsVal)
    (hids : ((pre ++ s :: post).map Step.id).Nodup)
    (hpre : ∀ t ∈ pre, stepOK env t)
    (hretry : s.retry = some (B : ℚ))
    (hN1 : 1 ≤ N) (hNB : N ≤ B)
    (hexec : ∀ a, env.exec s.id a = .ok (out a))
    (hscF : ∀ a, a < N → (safeParseSelfCheckStep (env.stepCheck s.id a)).ok = false)
    (hscT : (safeParseSelfCheckStep (env.stepCheck s.id N)).ok = true) :
    (∃ L ∈ (runPipeline env (pre ++ s :: post)).1.logs,
      L.id = s.id ∧ L.success = true ∧ L.attempts.length = N) ∧
    (runPipeline env (pre ++ s :: post)).1.failedStep ≠ some s.id ∧
    (∀ t ts, post = t :: ts →
      ∃ L2 ∈ (runPipeline env (pre ++ s :: post)).1.logs, L2.id = t.id) := by
  have hstep := runStepAttempts_selfcheck_pass env s B N out hretry hexec hN1 hNB hscF hscT
  have hpre1 : ∀ t ∈ pre ++ [s], stepOK env t := by
    intro t ht
    rcases List.mem_append.mp ht with h | h
    · exact hpre t h
    · simp only [List.mem_singleton] at h
      exact h ▸ hstep.1
  have hassoc : pre ++ s :: post = (pre ++ [s]) ++ post := by simp
  have hsteps : runSteps env (pre ++ s :: post) "running" none [] [] [] =
      runSteps env post "running" none (ctxOf env (pre ++ [s]))
        (stepLogsOf env (pre ++ [s])) (traceOf env (pre ++ [s])) := by
    rw [hassoc, runSteps_pre env (pre ++ [s]) post "running" none [] [] [] hpre1]
    simp
  have hlogs0 : mkStepLog s (runStepAttempts env s) ∈ stepLogsOf env (pre ++ [s]) := by
    simp [stepLogsOf]
  have hlogs_mono := runSteps_logs_mono env post "running" none
    (ctxOf env (pre ++ [s])) (stepLogsOf env (pre ++ [s])) (traceOf env (pre ++ [s]))
  obtain ⟨suffix, hsuf⟩ := hlogs_mono
  have hlogs_res : (runPipeline env (pre ++ s :: post)).1.logs =
      stepLogsOf env (pre ++ [s]) ++ suffix := by
    simp only [runPipeline]
    rw [hsteps]
    exact hsuf
  have h2 : (pre.map Step.id ++ s.id :: post.map Step.id).Nodup := by
    simpa using hids
  obtain ⟨hnd1, hnd2, hdisj⟩ := List.nodup_append.mp h2
  refine ⟨?_, ?_, ?_⟩
  · refine ⟨mkStepLog s (runStepAttempts env s), ?_, rfl, hstep.1, hstep.2⟩
    rw [hlogs_res]
    exact List.mem_append_left _ hlogs0
  · -- failedStep is none or the id of a later step, never s.id
    have hfailed := runSteps_failed_mem env post "running" none
      (ctxOf env (pre ++ [s])) (stepLogsOf env (pre ++ [s]))
      (traceOf env (pre ++ [s]))
    have hfs : (runPipeline env (pre ++ s :: post)).1.failedStep =
        (runSteps env post "running" none (ctxOf env (pre ++ [s]))
          (stepLogsOf env (pre ++ [s])) (traceOf env (pre ++ [s]))).2.1 := by
      simp only [runPipeline]
      rw [hsteps]
    rw [hfs]
    rcases hfailed with h | ⟨t, ht, hres⟩
    · rw [h]; simp
    · rw [hres]
      intro hc
      have htid : t.id = s.id := by simpa using hc
      have hspost : s.id ∉ post.map Step.id := (List.nodup_cons.mp hnd2).1
      exact hspost (htid ▸ List.mem_map_of_mem _ ht)
  · intro t ts hpost
    subst hpost
    obtain ⟨tail, htail⟩ := runSteps_head_logged env t ts "running" none
      (ctxOf env (pre ++ [s])) (stepLogsOf env (pre ++ [s]))
      (traceOf env (pre ++ [s]))
    refine ⟨mkStepLog t (runStepAttempts env t), ?_, rfl⟩
    have : (runPipeline env (pre ++ s :: (t :: ts))).1.logs =
        stepLogsOf env (pre ++ [s]) ++
          mkStepLog t (runStepAttempts env t) :: tail := by
      simp only [runPipeline]
      rw [hsteps]
      exact htail
    rw [this]
    simp

end Aion.Controller

namespace Aion.Controller

open Aion

/-- The step loop of the pipeline never reads the pipeline review reply. -/
theorem runSteps_pipeCheck_irrel (env : RunEnv) (p : Option JsVal) :
    ∀ (steps : List Step) (status : String) (failed : Option String)
      (ctx : List (String × StepCtxEntry)) (logs : List StepLog)
      (tr : List (String × Nat)),
      runSteps ⟨env.exec, env.stepCheck, p⟩ steps status failed ctx logs tr =
        runSteps env steps status failed ctx logs tr := by
  intro steps
  induction steps with
  | nil => intro status failed ctx logs tr; rfl
  | cons s rest ih =>
    intro status failed ctx logs tr
    simp only [runSteps, runStepAttempts_pipeCheck_irrel env p s]
    by_cases hs : (runStepAttempts env s).success = true
    · simp only [hs, if_true, ih]
    · simp only [hs, if_false]
      rfl

/-- C6: the run status is determined solely by the step loop — it is
`"success"` exactly when every step succeeded, and is unchanged under any
change of the pipeline review reply; the review verdict is attached as
advisory metadata (`selfCheck` is the defensive decode of the review reply at
the final status), and when the reply fails to decode a boolean `ok` field
the `ok` of the verdict defaults to `status == "success"` with the status itself
untouched. -/
theorem runPipeline_review_is_advisory (env : RunEnv) (steps : List Step) :
    ((runPipeline env steps).1.status = "success" ↔ ∀ s ∈ steps, stepOK env s) ∧
    (∀ p, (runPipeline {env with pipeCheck := p} steps).1.status =
        (runPipeline env steps).1.status ∧
      (runPipeline {env with pipeCheck := p} steps).1.failedStep =
        (runPipeline env steps).1.failedStep) ∧
    ((runPipeline env steps).1.selfCheck =
      safeParseSelfCheckPipeline env.pipeCheck (runPipeline env steps).1.status) ∧
    (∀ j, env.pipeCheck = some j → (∀ b, getField j "ok" ≠ .vBool b) →
      (runPipeline env steps).1.selfCheck.ok =
        ((runPipeline env steps).1.status == "success")) ∧
    (env.pipeCheck = none →
      (runPipeline env steps).1.selfCheck.ok =
        ((runPipeline env steps).1.status == "success")) := by
  refine ⟨?_, ?_, rfl, ?_, ?_⟩
  · by_cases hall : ∀ s ∈ steps, stepOK env s
    · have hr := (runSteps_status env steps "running" none [] [] []).1 hall
      have hst : (runPipeline env steps).1.status = "success" := by
        simp [runPipeline, hr]
      rw [hst]
      exact ⟨fun _ => hall, fun _ => rfl⟩
    · have hr := (runSteps_status env steps "running" none [] [] []).2 hall
      have hst : (runPipeline env steps).1.status = "error" := by
        simp [runPipeline, hr]
      rw [hst]
      constructor
      · intro hcon
        exact absurd hcon (by decide)
      · intro hcon
        exact absurd hcon hall
  · intro p
    constructor
    · simp only [runPipeline]
      rw [show ({ exec := env.exec, stepCheck := env.stepCheck, pipeCheck := p } :
          RunEnv) = ⟨env.exec, env.stepCheck, p⟩ from rfl,
        runSteps_pipeCheck_irrel env p]
    · simp only [runPipeline]
      rw [show ({ exec := env.exec, stepCheck := env.stepCheck, pipeCheck := p } :
          RunEnv) = ⟨env.exec, env.stepCheck, p⟩ from rfl,
        runSteps_pipeCheck_irrel env p]
  · intro j hpc hnb
    have hsc : (runPipeline env steps).1.selfCheck =
        safeParseSelfCheckPipeline (some j) (runPipeline env steps).1.status := by
      rw [show (runPipeline env steps).1.selfCheck =
          safeParseSelfCheckPipeline env.pipeCheck (runPipeline env steps).1.status
          from rfl, hpc]
    rw [hsc]
    simp only [safeParseSelfCheckPipeline]
  · intro hpc
    rw [show (runPipeline env steps).1.selfCheck =
        safeParseSelfCheckPipeline env.pipeCheck (runPipeline env steps).1.status
        from rfl, hpc]
    rfl

/-- Witness for `runPipeline_review_is_advisory`: with an undecodable review
reply the advisory `ok` defaults to the status comparison, at a concrete
failing run. -/
theorem runPipeline_review_is_advisory_witness :
    (runPipeline envThrow [stepRetry2]).1.selfCheck.ok =
      ((runPipeline envThrow [stepRetry2]).1.status == "success") :=
  (runPipeline_review_is_advisory envThrow [stepRetry2]).2.2.2.2 rfl

end Aion.Controller

namespace Aion.Pipeline

/-!
## PipelineSpec (src/core/PipelineSpec.js)

`_normalizeStep` fills defaults for a raw step object; notably
`retry: typeof step.retry === "number" ? step.retry : 0` — a missing or
non-number retry becomes `0`, not `1`.  `none` models the exception thrown
for a falsy or non-object step (`!step || typeof step !== "object"`); the
random `genStepId` is supplied as a parameter. -/

open Aion

/-- Embedding of `PipelineSpec._normalizeStep`. -/
def normalizeStep (genId : Nat → String) (step : JsVal) (index : Nat) :
    Option JsVal :=
  if truthy step = false ∨ typeofObject step = false then none
  else
    some (.vObj
      [("id", jsOr (getField step "id") (.vStr (genId index))),
       ("title", jsOr (getField step "title")
          (.vStr ("Step #" ++ toString (index + 1)))),
       ("agent", jsOr (getField step "agent") (.vStr "CodeAgent")),
       ("input", jsOr (getField step "input") (.vObj [])),
       ("dependsOn", jsOr (getField step "dependsOn") (.vArr [])),
       ("retry",
         match getField step "retry" with
         | .vNum q => .vNum q
         | _ => .vNum 0),
       ("metadata", jsOr (getField step "metadata") (.vObj []))])

end Aion.Pipeline

namespace Aion.Controller

open Aion

/-- C10: a step whose retry value is `0` is never attempted — its executor is
never invoked, it is logged with `success = false` and an empty attempt list,
and the run is `error` with that step as `failedStep`; and `PipelineSpec`
normalization assigns retry `0` (not `1`) to any step whose `retry` field is
missing or not a number. -/
theorem runPipeline_zero_retry_never_runs (env : RunEnv)
    (pre post : List Step) (s : Step)
    (hids : ((pre ++ s :: post).map Step.id).Nodup)
    (hpre : ∀ t ∈ pre, stepOK env t)
    (hretry : s.retry = some 0) :
    (∀ a, (s.id, a) ∉ (runPipeline env (pre ++ s :: post)).2) ∧
    (∃ L, (runPipeline env (pre ++ s :: post)).1.logs.getLast? = some L ∧
      L.id = s.id ∧ L.attempts = [] ∧ L.success = false) ∧
    (runPipeline env (pre ++ s :: post)).1.status = "error" ∧
    (runPipeline env (pre ++ s :: post)).1.failedStep = some s.id ∧
    (∀ genId raw i, truthy raw = true → typeofObject raw = true →
      (∀ q, getField raw "retry" ≠ .vNum q) →
      ∃ fields, Aion.Pipeline.normalizeStep genId raw i = some (.vObj fields) ∧
        getField (.vObj fields) "retry" = .vNum 0) := by
  have hzero : runStepAttempts env s = ⟨false, none, none, []⟩ := by
    have hlc : loopCount ((0 : ℚ)) = 0 := by
      rw [show ((0 : ℚ)) = ((0 : ℕ) : ℚ) by norm_num, loopCount_natCast]
    simp [runStepAttempts, hretry, hlc, stepGo]
  have hfail : (runStepAttempts env s).success = false := by rw [hzero]
  have hrun := runPipeline_fail_at env pre post s hpre hfail
  have hsid : s.id ∉ pre.map Step.id := by
    have h2 : (pre.map Step.id ++ s.id :: post.map Step.id).Nodup := by
      simpa using hids
    intro hmem
    exact (List.nodup_append.mp h2).2.2 hmem (by simp)
  refine ⟨?_, ?_, by rw [hrun], by rw [hrun], ?_⟩
  · intro a hmem
    rw [hrun] at hmem
    have htr : stepTrace env s = [] := by
      simp [stepTrace, hzero]
    rw [htr, List.append_nil] at hmem
    exact hsid ((traceOf_fst_mem env pre _ hmem : _))
  · refine ⟨mkStepLog s (runStepAttempts env s), ?_, rfl, by rw [hzero]; rfl, hfail⟩
    rw [hrun]
    simp [List.getLast?_concat]
  · intro genId raw i htr hobj hnn
    have hcond : ¬ (truthy raw = false ∨ typeofObject raw = false) := by
      simp [htr, hobj]
    have hmatch : (match getField raw "retry" with
        | JsVal.vNum q => JsVal.vNum q
        | _ => JsVal.vNum 0) = JsVal.vNum 0 := by
      cases hr : getField raw "retry" with
      | vNum q => exact absurd hr (hnn q)
      | vUndefined => rfl
      | vNull => rfl
      | vBool b => rfl
      | vStr st => rfl
      | vArr xs => rfl
      | vObj fs => rfl
    refine ⟨[("id", jsOr (getField raw "id") (.vStr (genId i))),
             ("title", jsOr (getField raw "title")
                (.vStr ("Step #" ++ toString (i + 1)))),
             ("agent", jsOr (getField raw "agent") (.vStr "CodeAgent")),
             ("input", jsOr (getField raw "input") (.vObj [])),
             ("dependsOn", jsOr (getField raw "dependsOn") (.vArr [])),
             ("retry",
               match getField raw "retry" with
               | JsVal.vNum q => JsVal.vNum q
               | _ => JsVal.vNum 0),
             ("metadata", jsOr (getField raw "metadata") (.vObj []))], ?_, ?_⟩
    · simp only [Aion.Pipeline.normalizeStep, if_neg hcond]
    · exact hmatch

/-- Witness step whose retry value is 0. -/
def stepRetry0 : Step := ⟨"s0", .vStr "step zero", "CodeAgent", some 0⟩

/-- Witness for `runPipeline_zero_retry_never_runs`: a single zero-retry step
is never invoked and fails the run; a raw step with string retry normalizes
to retry 0. -/
theorem runPipeline_zero_retry_never_runs_witness :
    ("s0", 1) ∉ (runPipeline envThrow ([] ++ stepRetry0 :: [])).2 ∧
    (runPipeline envThrow ([] ++ stepRetry0 :: [])).1.status = "error" ∧
    (∃ fields,
      Aion.Pipeline.normalizeStep (fun _ => "gen") (.vObj [("retry", .vStr "x")]) 0 =
        some (.vObj fields) ∧
      getField (.vObj fields) "retry" = .vNum 0) := by
  have h := runPipeline_zero_retry_never_runs envThrow [] [] stepRetry0
    (by simp) (by simp) rfl
  exact ⟨h.1 1, h.2.2.1,
    h.2.2.2.2 (fun _ => "gen") (.vObj [("retry", .vStr "x")]) 0 rfl rfl
      (fun q hq => by simp [getField, List.lookup] at hq)⟩

end Aion.Controller

namespace Aion.Controller

open Aion

/-- Witness environment: an executor that always succeeds and a step
self-check that fails before attempt 2 and passes at attempt 2. -/
def envRetryCheck : RunEnv :=
  ⟨fun _ _ => .ok (.vStr "out"),
   fun _ a =>
     if a < 2 then some (.vObj [("ok", .vBool false)])
     else some (.vObj [("ok", .vBool true)]),
   none⟩

/-- Witness step with retry budget 3. -/
def stepSC : Step := ⟨"sA", .vStr "step A", "CodeAgent", some ((3 : ℕ) : ℚ)⟩

/-- Witness for `runPipeline_selfcheck_retry_then_succeed`: with budget 3 and
a self-check passing on attempt 2, the step succeeds after 2 attempts and the
next step is processed. -/
theorem runPipeline_selfcheck_retry_then_succeed_witness :
    (∃ L ∈ (runPipeline envRetryCheck ([] ++ stepSC :: [stepLater])).1.logs,
      L.id = "sA" ∧ L.success = true ∧ L.attempts.length = 2) ∧
    (∃ L2 ∈ (runPipeline envRetryCheck ([] ++ stepSC :: [stepLater])).1.logs,
      L2.id = "s2") := by
  have h := runPipeline_selfcheck_retry_then_succeed envRetryCheck [] [stepLater]
    stepSC 3 2 (fun _ => .vStr "out")
    (by simp [stepSC, stepLater]) (by simp) rfl (by omega) (by omega)
    (fun a => rfl)
    (by
      intro a ha
      show (safeParseSelfCheckStep
        (if a < 2 then some (.vObj [("ok", .vBool false)])
         else some (.vObj [("ok", .vBool true)]))).ok = false
      rw [if_pos ha]
      rfl)
    (by rfl)
  refine ⟨h.1, ?_⟩
  obtain ⟨L2, hL2, hid⟩ := h.2.2 stepLater [] rfl
  exact ⟨L2, hL2, by rw [hid]; rfl⟩

end Aion.Controller
